import Mathlib

/-!
Verification of the jtoolbox utility library: a shallow embedding of the
file-reorganization helpers (`files.py`) and of the hierarchical key/value
logger (`utils.py`), together with proofs and refutations of the stated
behavioural properties.

Filesystem existence is modelled by a finite list of occupied paths; the
logger file is modelled by a finite association list from hierarchical keys
to stored objects.  All definitions are executable and evaluate by `decide`.
-/

namespace Jtoolbox

/-! ### String helpers over the character-list representation -/

theorem strData_inj {s t : String} (h : s.data = t.data) : s = t := by
  cases s; cases t; exact congrArg String.mk h

theorem strAppend_data (a b : String) : (a ++ b).data = a.data ++ b.data := by
  cases a; cases b; rfl

theorem strLength_data (s : String) : s.length = s.data.length := rfl

theorem strLength_append (a b : String) : (a ++ b).length = a.length + b.length := by
  show (a ++ b).data.length = a.data.length + b.data.length
  rw [strAppend_data, List.length_append]

/-- Boolean test that the first list is a prefix of the second. -/
def isPrefixList : List Char → List Char → Bool
  | [], _ => true
  | _ :: _, [] => false
  | a :: as, b :: bs => a == b && isPrefixList as bs

theorem isPrefixList_length : ∀ {p s : List Char}, isPrefixList p s = true → p.length ≤ s.length
  | [], _, _ => by simp
  | _ :: _, [], h => by simp [isPrefixList] at h
  | a :: as, b :: bs, h => by
    simp only [isPrefixList, Bool.and_eq_true] at h
    simpa using Nat.succ_le_succ (isPrefixList_length h.2)

/-- Boolean test that `s` starts with `pre` (model of Python `str.startswith`). -/
def strStartsWith (s pre : String) : Bool := isPrefixList pre.data s.data

theorem strStartsWith_length {s pre : String} (h : strStartsWith s pre = true) :
    pre.length ≤ s.length := isPrefixList_length h

/-! ### Decimal rendering of naturals, as Python `str(n)` produces it -/

/-- Little-endian decimal digits of `n`; `fuel ≥ n` makes the recursion total. -/
def natDigits : Nat → Nat → List Nat
  | 0, _ => []
  | fuel + 1, n => if n = 0 then [] else (n % 10) :: natDigits fuel (n / 10)

theorem natDigits_zero : ∀ fuel, natDigits fuel 0 = []
  | 0 => rfl
  | _ + 1 => by simp [natDigits]

/-- The decimal string of a natural number, most significant digit first. -/
def natStr (n : Nat) : String :=
  if n = 0 then "0" else ⟨((natDigits n n).map Nat.digitChar).reverse⟩

theorem natDigits_pow_len : ∀ (k fuel : Nat), 10 ^ k ≤ fuel →
    (natDigits fuel (10 ^ k)).length = k + 1 := by
  intro k
  induction k with
  | zero =>
    intro fuel h
    match fuel, h with
    | f + 1, _ => simp [natDigits, natDigits_zero]
  | succ k ih =>
    intro fuel h
    have hpos : 0 < 10 ^ (k + 1) := Nat.pos_pow_of_pos _ (by norm_num)
    match fuel, Nat.lt_of_lt_of_le hpos h with
    | f + 1, _ =>
      have hne : 10 ^ (k + 1) ≠ 0 := Nat.pos_iff_ne_zero.mp hpos
      have hdiv : 10 ^ (k + 1) / 10 = 10 ^ k := by
        rw [pow_succ]; exact Nat.mul_div_cancel _ (by norm_num)
      have hk : 0 < 10 ^ k := Nat.pos_pow_of_pos _ (by norm_num)
      have hfuel : 10 ^ k ≤ f := by
        have h10 : 10 ^ k + 1 ≤ 10 ^ (k + 1) := by
          have : 2 * 10 ^ k ≤ 10 * 10 ^ k := by
            exact Nat.mul_le_mul_right _ (by norm_num)
          calc 10 ^ k + 1 ≤ 10 ^ k + 10 ^ k := by omega
            _ = 2 * 10 ^ k := by ring
            _ ≤ 10 * 10 ^ k := this
            _ = 10 ^ (k + 1) := by rw [pow_succ, Nat.mul_comm]
        omega
      simp only [natDigits, hne, if_false, hdiv, List.length_cons]
      rw [ih f hfuel]

theorem natStr_len_pow (k : Nat) : (natStr (10 ^ k)).length = k + 1 := by
  have hpos : 0 < 10 ^ k := Nat.pos_pow_of_pos _ (by norm_num)
  have hne : 10 ^ k ≠ 0 := Nat.pos_iff_ne_zero.mp hpos
  simp only [natStr, hne, if_false, strLength_data, List.length_reverse, List.length_map]
  exact natDigits_pow_len k (10 ^ k) le_rfl

theorem natStr_len_pos (n : Nat) : 1 ≤ (natStr n).length := by
  by_cases h : n = 0
  · subst h; rfl
  · have hpos : 0 < n := Nat.pos_of_ne_zero h
    match n, hpos with
    | m + 1, _ =>
      simp [natStr, strLength_data, natDigits]

/-! ### Maximum length of the occupied paths -/

def maxLen : List String → Nat
  | [] => 0
  | s :: rest => max s.length (maxLen rest)

theorem length_le_maxLen : ∀ {l : List String} {s : String}, s ∈ l → s.length ≤ maxLen l := by
  intro l
  induction l with
  | nil => intro s h; cases h
  | cons a rest ih =>
    intro s h
    rcases List.mem_cons.mp h with h1 | h2
    · subst h1; exact Nat.le_max_left _ _
    · exact le_trans (ih h2) (Nat.le_max_right _ _)

/-! ### `os.path.splitext` (posixpath, `sep = '/'`, `extsep = '.'`) -/

/-- Index of the last occurrence of `c`, or `-1` when absent (Python `str.rfind`). -/
def rfindAux (c : Char) : List Char → Int → Int → Int
  | [], _, acc => acc
  | x :: xs, i, acc => rfindAux c xs (i + 1) (if x == c then i else acc)

def rfind (s : List Char) (c : Char) : Int := rfindAux c s 0 (-1)

/-- `os.path.splitext`: split off the extension at the last dot of the final
path component, unless that component consists only of leading dots. -/
def splitext (p : String) : String × String :=
  let cs := p.data
  let sepIndex := rfind cs '/'
  let dotIndex := rfind cs '.'
  if sepIndex < dotIndex then
    let between := (cs.drop (sepIndex + 1).toNat).take (dotIndex - sepIndex - 1).toNat
    if between.any (fun ch => ch != '.') then
      (⟨cs.take dotIndex.toNat⟩, ⟨cs.drop dotIndex.toNat⟩)
    else (p, "")
  else (p, "")

theorem splitext_append (p : String) : (splitext p).1 ++ (splitext p).2 = p := by
  unfold splitext
  by_cases h1 : rfind p.data '/' < rfind p.data '.'
  · simp only [h1, if_true]
    by_cases h2 : ((p.data.drop (rfind p.data '/' + 1).toNat).take
        (rfind p.data '.' - rfind p.data '/' - 1).toNat).any (fun ch => ch != '.')
    · simp only [h2, if_true]
      apply strData_inj
      rw [strAppend_data]
      show p.data.take _ ++ p.data.drop _ = p.data
      exact List.take_append_drop _ _
    · simp only [h2, if_false]
      apply strData_inj
      rw [strAppend_data]
      simp
  · simp only [h1, if_false]
    apply strData_inj
    rw [strAppend_data]
    simp

theorem splitext_length (p : String) : (splitext p).1.length + (splitext p).2.length = p.length := by
  rw [← strLength_append, splitext_append]

/-! ### `get_unique_filename` (UniqueNamer)

Source (`src/jtoolbox/files.py`, identical in the legacy variant):

    name, ext = os.path.splitext(filepath)
    suffix = 0
    if os.path.exists(filepath):
        while True:
            suffix += 1
            filepath = f"{name}({suffix}).{ext}"
            if not os.path.exists(filepath):
                return filepath
    else:
        return filepath

`os.path.exists` is modelled by membership in the finite list `fs` of
occupied paths.  Note that `ext` already carries its leading dot, so the
f-string candidate contains two consecutive dots for a path such as `x.txt`.
-/

/-- One loop candidate: `f"\x7bname\x7d(\x7bsuffix\x7d).\x7bext\x7d"`. -/
def candidate (name ext : String) (suffix : Nat) : String :=
  name ++ "(" ++ natStr suffix ++ ")." ++ ext

theorem candidate_length (name ext : String) (n : Nat) :
    (candidate name ext n).length = name.length + (natStr n).length + 3 + ext.length := by
  unfold candidate
  rw [strLength_append, strLength_append, strLength_append, strLength_append]
  show name.length + 1 + (natStr n).length + 2 + ext.length = _
  omega

/-- The `while True` loop of `get_unique_filename`.  The fuel is a bound on the
number of iterations; `findUnique_found` shows the fuel used in
`get_unique_filename` is never exhausted, so the `fuel = 0` branch is dead. -/
def findUnique (fs : List String) (name ext : String) : Nat → Nat → String
  | _, 0 => ""
  | suffix, fuel + 1 =>
    let s := suffix + 1
    let fp := candidate name ext s
    if fp ∈ fs then findUnique fs name ext s fuel else fp

def get_unique_filename (fs : List String) (filepath : String) : String :=
  let p := splitext filepath
  if filepath ∈ fs then
    findUnique fs p.1 p.2 0 (10 ^ (maxLen fs + 1))
  else filepath

theorem findUnique_found (fs : List String) (name ext : String) :
    ∀ (fuel s0 : Nat), (∃ k, k < fuel ∧ candidate name ext (s0 + k + 1) ∉ fs) →
      ∃ m, s0 < m ∧ findUnique fs name ext s0 fuel = candidate name ext m ∧
        candidate name ext m ∉ fs := by
  intro fuel
  induction fuel with
  | zero =>
    intro s0 ⟨k, hk, _⟩
    exact absurd hk (Nat.not_lt_zero k)
  | succ fuel ih =>
    intro s0 ⟨k, hk, hfree⟩
    by_cases hmem : candidate name ext (s0 + 1) ∈ fs
    · have hk0 : k ≠ 0 := by
        intro h0; subst h0; exact hfree hmem
      obtain ⟨k', rfl⟩ := Nat.exists_eq_succ_of_ne_zero hk0
      have : candidate name ext ((s0 + 1) + k' + 1) ∉ fs := by
        have : s0 + (k' + 1) + 1 = (s0 + 1) + k' + 1 := by omega
        rwa [this] at hfree
      obtain ⟨m, hm, heq, hfree'⟩ := ih (s0 + 1) ⟨k', by omega, this⟩
      refine ⟨m, by omega, ?_, hfree'⟩
      simpa [findUnique, hmem] using heq
    · refine ⟨s0 + 1, by omega, ?_, hmem⟩
      simp [findUnique, hmem]

theorem candidate_long_free (fs : List String) (name ext : String) :
    ∃ k, k < 10 ^ (maxLen fs + 1) ∧ candidate name ext (0 + k + 1) ∉ fs := by
  have hpos : 0 < 10 ^ maxLen fs := Nat.pos_pow_of_pos _ (by norm_num)
  refine ⟨10 ^ maxLen fs - 1, ?_, ?_⟩
  · have : (10 : Nat) ^ maxLen fs < 10 ^ (maxLen fs + 1) :=
      Nat.pow_lt_pow_right (by norm_num) (by omega)
    omega
  · intro hmem
    have hn : 0 + (10 ^ maxLen fs - 1) + 1 = 10 ^ maxLen fs := by omega
    rw [hn] at hmem
    have hlen := length_le_maxLen hmem
    rw [candidate_length, natStr_len_pow] at hlen
    omega

/-- Claim C7: for a path not occupied, `get_unique_filename` returns it
unchanged; for an occupied path it returns a path that is not occupied and is
lexically distinct from the input. -/
theorem get_unique_filename_spec (fs : List String) (p : String) :
    (p ∉ fs → get_unique_filename fs p = p) ∧
    (p ∈ fs → get_unique_filename fs p ∉ fs ∧ get_unique_filename fs p ≠ p) := by
  constructor
  · intro hno
    simp [get_unique_filename, hno]
  · intro hyes
    obtain ⟨m, _, heq, hfree⟩ :=
      findUnique_found fs (splitext p).1 (splitext p).2 (10 ^ (maxLen fs + 1)) 0
        (candidate_long_free fs (splitext p).1 (splitext p).2)
    have hval : get_unique_filename fs p = candidate (splitext p).1 (splitext p).2 m := by
      simpa [get_unique_filename, hyes] using heq
    refine ⟨by rw [hval]; exact hfree, ?_⟩
    rw [hval]
    intro hcontra
    have h1 : (candidate (splitext p).1 (splitext p).2 m).length = p.length :=
      congrArg String.length hcontra
    rw [candidate_length] at h1
    have h2 := splitext_length p
    have h3 := natStr_len_pos m
    omega

/-- Witness for C7 at a concrete occupied path. -/
theorem get_unique_filename_spec_witness :
    get_unique_filename ["x.txt"] "x.txt" ∉ ["x.txt"] ∧
    get_unique_filename ["x.txt"] "x.txt" ≠ "x.txt" :=
  (get_unique_filename_spec ["x.txt"] "x.txt").2 (by decide)

/-- Claim C5: the candidate built by `get_unique_filename` for `x.txt` is
`x(1)..txt`, not `x(1).txt`: `os.path.splitext` keeps the dot in the
extension and the f-string inserts another one. -/
theorem get_unique_filename_double_dot :
    get_unique_filename ["x.txt"] "x.txt" = "x(1)..txt" ∧
    get_unique_filename ["x.txt"] "x.txt" ≠ "x(1).txt" := by
  constructor
  · rfl
  · decide

/-! ### `move_files_to_top` (TreeFlattener)

Source (`src/jtoolbox/files.py`, identical in the legacy variant):

    for root, dirs, files in os.walk(dir_path):
        if root == dir_path:
            dirs0 = dirs
            continue
        for file in files:
            old_path = os.path.join(root, file)
            new_path = os.path.join(dir_path, file)
            if not os.path.exists(new_path):
                shutil.move(old_path, new_path)
            elif duplicate_suffix:
                new_path = get_unique_filename(new_path)
            else:
                print(f"File ... already exists")
                shutil.move(old_path, new_path)
    dirs0 = [d for d in os.listdir(dir_path) if os.path.isdir(os.path.join(dir_path, d))]
    if del_empty_dirs:
        for d in dirs0:
            shutil.rmtree(os.path.join(dir_path, d))

The filesystem subtree under `dir_path` is modelled by the files directly in
`dir_path` plus the walked subdirectories (in `os.walk` top-down order, with
their paths relative to `dir_path`) and the files each one contains.  Files
carry a content tag so that loss and overwriting are observable.  In the
`elif duplicate_suffix` branch the source computes `get_unique_filename` into
the local `new_path` and discards it: no move is performed and nothing is
printed, so the model leaves the file in its subdirectory.  In the final
`else` branch `shutil.move` onto an existing regular file replaces that
file's content; a `shutil.move` whose destination is an existing directory
(possible only when a top-level directory shares its name with a moved file)
is outside the model and yields `none`.
-/

structure FFile where
  name : String
  content : Nat
deriving DecidableEq

structure FTree where
  topFiles : List FFile
  subdirs : List (String × List FFile)
deriving DecidableEq

structure FlattenResult where
  topFiles : List FFile
  subdirs : List (String × List FFile)
  logs : List String
deriving DecidableEq

def topHasFile (top : List FFile) (name : String) : Bool :=
  top.any fun g => g.name == name

/-- `os.path.exists(os.path.join(dir_path, name))`: a file or a directory with
that name directly inside `dir_path`. -/
def destExists (top : List FFile) (dirNames : List String) (name : String) : Bool :=
  topHasFile top name || dirNames.any (fun d => d == name)

/-- The inner `for file in files` loop over one visited subdirectory.
Returns the top-level files, the files left in this subdirectory, and the
printed collision messages. -/
def flattenDir (dupSuffix : Bool) (dirPath : String) (dirNames : List String) :
    List FFile → List FFile → List String → Option (List FFile × List FFile × List String)
  | [], top, logs => some (top, [], logs)
  | f :: fs, top, logs =>
    if destExists top dirNames f.name = false then
      flattenDir dupSuffix dirPath dirNames fs (top ++ [f]) logs
    else if dupSuffix then
      match flattenDir dupSuffix dirPath dirNames fs top logs with
      | some (top', rem, logs') => some (top', f :: rem, logs')
      | none => none
    else
      if topHasFile top f.name then
        flattenDir dupSuffix dirPath dirNames fs
          (top.map fun g => if g.name == f.name then { g with content := f.content } else g)
          (logs ++ ["File " ++ dirPath ++ "/" ++ f.name ++ " already exists"])
      else none

/-- The outer `os.walk` loop over the subdirectories. -/
def flattenDirs (dupSuffix : Bool) (dirPath : String) (dirNames : List String) :
    List (String × List FFile) → List FFile → List String →
    Option (List FFile × List (String × List FFile) × List String)
  | [], top, logs => some (top, [], logs)
  | (d, files) :: rest, top, logs =>
    match flattenDir dupSuffix dirPath dirNames files top logs with
    | some (top', rem, logs') =>
      match flattenDirs dupSuffix dirPath dirNames rest top' logs' with
      | some (top'', rest', logs'') => some (top'', (d, rem) :: rest', logs'')
      | none => none
    | none => none

/-- `p` lies at or below the top-level directory `d`. -/
def underDir (d p : String) : Bool := p == d || strStartsWith p (d ++ "/")

def move_files_to_top (dirPath : String) (tree : FTree)
    (del_empty_dirs duplicate_suffix : Bool) : Option FlattenResult :=
  let dirNames := tree.subdirs.map Prod.fst
  match flattenDirs duplicate_suffix dirPath dirNames tree.subdirs tree.topFiles [] with
  | some (top, subs, logs) =>
    let dirs0 := (subs.map Prod.fst).filter fun d => d.data.all fun c => c != '/'
    if del_empty_dirs then
      some ⟨top, subs.filter (fun s => (dirs0.any fun d => underDir d s.1) = false), logs⟩
    else
      some ⟨top, subs, logs⟩
  | none => none

/-- Claim C1: with the default auto-suffix policy and `del_empty_dirs` set,
the colliding file `root/sub/x.txt` is neither moved to the top nor logged:
the unique name is computed and discarded, the file stays in `sub`, and
`shutil.rmtree` then destroys it silently — the result holds no file with
content tag 1 and an empty log, although the policy is auto-suffix, not the
documented `skip + delete_empty_dirs` combination. -/
theorem move_files_to_top_loses_collided_file :
    move_files_to_top "root" ⟨[⟨"x.txt", 0⟩], [("sub", [⟨"x.txt", 1⟩])]⟩ true true =
      some ⟨[⟨"x.txt", 0⟩], [], []⟩ := by decide

/-- Claim C2: flattening `root/x.txt`, `root/sub/x.txt` with
`duplicate_suffix = True` does not produce `x(1).txt` at the top: the
renamed destination is computed but never used, and `root/sub/x.txt` stays
where it was. -/
theorem move_files_to_top_collision_not_renamed :
    move_files_to_top "root" ⟨[⟨"x.txt", 0⟩], [("sub", [⟨"x.txt", 1⟩])]⟩ false true =
      some ⟨[⟨"x.txt", 0⟩], [("sub", [⟨"x.txt", 1⟩])], []⟩ := by decide

/-- Claim C4: with `duplicate_suffix = False` (the skip policy) the flattener
prints the collision message but then moves anyway: the source file leaves
`sub` and the existing destination content (tag 0) is overwritten by tag 1. -/
theorem move_files_to_top_skip_overwrites :
    move_files_to_top "root" ⟨[⟨"x.txt", 0⟩], [("sub", [⟨"x.txt", 1⟩])]⟩ false false =
      some ⟨[⟨"x.txt", 1⟩], [("sub", [])], ["File root/x.txt already exists"]⟩ := by decide

/-! ### The `h5_logger` key/value log (`src/jtoolbox/utils.py`)

The log file is modelled as a finite association list from full hierarchical
keys (slash-delimited strings) to stored objects: either a growable dataset
(a list of records, one per append) or a fixed scalar dataset as created by
`file[key] = value`.  Groups are implicit: a group exists exactly when some
stored key lies strictly below it.  Record values are modelled by `Int`;
shape bookkeeping of the array library is outside the model, as every record
of one dataset has the same (scalar) shape here.  The file itself is assumed
to exist, having been created by the logger's constructor; the transient
lock-retry (`BlockingIOError`) paths repeat the same operation and are not
modelled separately. -/

inductive H5Entry
  | dset (records : List Int)
  | scalar (v : Int)
deriving DecidableEq

abbrev H5 := List (String × H5Entry)

/-- `key in file` / `file[key]` resolvability in the array library: the key
names a stored dataset exactly, or an implicit group above some stored key. -/
def h5_member (f : H5) (key : String) : Bool :=
  f.any fun e => e.1 == key || strStartsWith e.1 (key ++ "/")

/-- Source of `check_if_in_h5`:

    def check_if_in_h5(path, key):
        # check that file exists
        if not os.path.exists(path):
            return False
        with h5py.File(path, "r") as f:
            try:
                f[key]
                return True
            except KeyError:
                return False

`utils.py` imports contextlib, datetime, logging, time, h5py and joblib but
never `os`, so the very first statement raises
`NameError: name 'os' is not defined` on every call; the membership logic
below it (which would compute `h5_member f key`) is unreachable.  Used by
`log_attribute` and, through `check_key`, by `get_unique_key`. -/
def check_if_in_h5 (f : H5) (key : String) : Except String Bool :=
  Except.error "NameError: name 'os' is not defined"

/-- `check_key(key)`: `return check_if_in_h5(self.filename, key)`. -/
def check_key (f : H5) (key : String) : Except String Bool := check_if_in_h5 f key

/-- The dataset stored at exactly `key`, if any (`file[key]` for a leaf). -/
def lookupEntry (f : H5) (key : String) : Option H5Entry :=
  (f.find? fun e => e.1 == key).map Prod.snd

def updateEntry (f : H5) (key : String) (entry : H5Entry) : H5 :=
  f.map fun e => if e.1 == key then (e.1, entry) else e

/-- Source of `log_attribute`:

    if check_if_in_h5(self.filename, key):
        if not replace:
            AttributeError(f"Key ... already exists. Use replace=True to overwrite.")
        else:
            with h5py.File(self.filename, "a") as file:
                del file[key]
                file[key] = value
    else:
        with h5py.File(self.filename, "a") as file:
            file[key] = value

The first statement calls `check_if_in_h5`, whose `NameError` propagates, so
every call fails before touching the file.  The branches below are modelled
all the same: were the check reachable, the `not replace` branch would
return normally with the file untouched — its `AttributeError` is
constructed but never raised — and the `else` branch would overwrite. -/
def log_attribute (f : H5) (key : String) (value : Int) (replace : Bool) :
    Except String H5 :=
  match check_if_in_h5 f key with
  | Except.error e => Except.error e
  | Except.ok true =>
    if !replace then
      Except.ok f
    else
      Except.ok ((f.filter fun e => e.1 != key) ++ [(key, H5Entry.scalar value)])
  | Except.ok false => Except.ok (f ++ [(key, H5Entry.scalar value)])

/-- Claim C3: `log_attribute` on an existing key does fail, but with
`NameError` rather than `AlreadyExists`: its first statement calls
`check_if_in_h5`, which references the never-imported `os` module.  With
`replace` set it raises identically and never overwrites; the stored value
is left unchanged in both cases.  (Even were the check repaired, the
`AttributeError` of the no-replace branch is constructed but never raised.) -/
theorem log_attribute_name_error :
    log_attribute [("k", H5Entry.scalar 5)] "k" 7 false =
      Except.error "NameError: name 'os' is not defined" ∧
    log_attribute [("k", H5Entry.scalar 5)] "k" 7 true =
      Except.error "NameError: name 'os' is not defined" := by
  constructor <;> rfl

/-! ### `log_value`, `_append_to_dataset`, `get_dataset` -/

/-- Source of `log_value` (file handle opened per call):

    if data_key not in file.keys():
        self._init_dataset(file, data_key, data_value)
    else:
        self._append_to_dataset(file, data_key, data_value)

The membership test delegates to group containment, so it resolves nested
keys.  `_init_dataset` creates the dataset holding the single record
`data[None]`; creation fails when the key already resolves (impossible in
this branch).  `_append_to_dataset` resizes the leading dimension by one and
writes the record last; resizing fails on a dataset created without a
growable dimension (the `scalar` case, e.g. written by `log_attribute`) and
on a group (which has no `resize`). -/
def log_value (f : H5) (key : String) (v : Int) : Except String H5 :=
  if h5_member f key = false then
    Except.ok (f ++ [(key, H5Entry.dset [v])])
  else
    match lookupEntry f key with
    | some (H5Entry.dset rs) => Except.ok (updateEntry f key (H5Entry.dset (rs ++ [v])))
    | some (H5Entry.scalar _) => Except.error "resize: dataset has a fixed shape"
    | none => Except.error "resize: object is a group"

/-- `log_value` called once per element of `vs`, left to right. -/
def logValueN (f : H5) (key : String) : List Int → Except String H5
  | [] => Except.ok f
  | v :: rest =>
    match log_value f key v with
    | Except.ok f' => logValueN f' key rest
    | Except.error e => Except.error e

/-- Source of `get_dataset`: `return file[dataset_name][:]`.  Slicing a
growable dataset yields its full record sequence; `[:]` on a scalar
dataspace or a missing/group key raises. -/
def get_dataset (f : H5) (key : String) : Except String (List Int) :=
  match lookupEntry f key with
  | some (H5Entry.dset rs) => Except.ok rs
  | some (H5Entry.scalar _) => Except.error "illegal slicing for scalar dataspace"
  | none => Except.error "KeyError"

theorem lookupEntry_mem {f : H5} {key : String} {E : H5Entry}
    (h : lookupEntry f key = some E) : h5_member f key = true := by
  induction f with
  | nil => simp [lookupEntry] at h
  | cons e rest ih =>
    by_cases he : e.1 == key
    · simp [h5_member, he]
    · simp only [lookupEntry, List.find?_cons, he] at h
      have := ih (by simpa [lookupEntry] using h)
      simp only [h5_member, List.any_cons, Bool.or_eq_true] at this ⊢
      exact Or.inr this

theorem h5_member_false_ne {f : H5} {key : String} (h : h5_member f key = false) :
    ∀ e ∈ f, (e.1 == key) = false := by
  intro e he
  simp only [h5_member, List.any_eq_false] at h
  have := h e he
  simp only [Bool.or_eq_true, not_or] at this
  exact Bool.eq_false_iff.mpr fun hc => this.1 hc

theorem lookupEntry_append_self {f : H5} {key : String} (E : H5Entry)
    (h : h5_member f key = false) :
    lookupEntry (f ++ [(key, E)]) key = some E := by
  induction f with
  | nil => simp [lookupEntry]
  | cons e rest ih =>
    have hne : (e.1 == key) = false := h5_member_false_ne h e (by simp)
    have hrest : h5_member rest key = false := by
      simp only [h5_member, List.any_cons, Bool.or_eq_false_iff] at h
      exact h.2
    simp only [List.cons_append, lookupEntry, List.find?_cons, hne]
    exact ih hrest

theorem lookupEntry_cons (x : String × H5Entry) (xs : H5) (key : String) :
    lookupEntry (x :: xs) key = if x.1 == key then some x.2 else lookupEntry xs key := by
  by_cases hx : (x.1 == key) = true <;> simp [lookupEntry, List.find?_cons, hx]

theorem lookupEntry_update {f : H5} {key : String} {E0 : H5Entry} (E : H5Entry)
    (h : lookupEntry f key = some E0) :
    lookupEntry (updateEntry f key E) key = some E := by
  induction f with
  | nil => simp [lookupEntry] at h
  | cons e rest ih =>
    rw [lookupEntry_cons] at h
    show lookupEntry ((if e.1 == key then (e.1, E) else e) :: updateEntry rest key E) key =
      some E
    by_cases he : (e.1 == key) = true
    · rw [if_pos he, lookupEntry_cons]
      simp only [he, if_true]
    · rw [if_neg he, lookupEntry_cons, if_neg he]
      rw [if_neg he] at h
      exact ih h

theorem log_value_dset {f : H5} {key : String} {l : List Int} (v : Int)
    (h : lookupEntry f key = some (H5Entry.dset l)) :
    log_value f key v = Except.ok (updateEntry f key (H5Entry.dset (l ++ [v]))) := by
  have hm := lookupEntry_mem h
  simp [log_value, hm, h]

theorem logValueN_dset {key : String} :
    ∀ (vs : List Int) (f : H5) (l : List Int),
      lookupEntry f key = some (H5Entry.dset l) →
      ∃ f', logValueN f key vs = Except.ok f' ∧
        lookupEntry f' key = some (H5Entry.dset (l ++ vs)) := by
  intro vs
  induction vs with
  | nil =>
    intro f l h
    exact ⟨f, rfl, by simpa using h⟩
  | cons v rest ih =>
    intro f l h
    have hstep := log_value_dset v h
    have hnext := lookupEntry_update (H5Entry.dset (l ++ [v])) h
    obtain ⟨f', hrun, hlook⟩ := ih (updateEntry f key (H5Entry.dset (l ++ [v]))) (l ++ [v]) hnext
    refine ⟨f', ?_, by simpa using hlook⟩
    simp [logValueN, hstep, hrun]

/-- Claim C8: appending with `log_value` and reading back with `get_dataset`
round-trips.  (i) After any successful `log_value key v`, `get_dataset key`
yields a sequence whose last element is `v`.  (ii) On a stored dataset an
append extends the record list by exactly `v`, growing its length by one.
(iii) Starting from a state where `key` resolves to nothing, `N ≥ 1` calls
succeed and leave a dataset of length `N`. -/
theorem log_value_roundtrip (f : H5) (key : String) (v : Int) (vs : List Int) :
    (∀ f', log_value f key v = Except.ok f' →
      ∃ l, get_dataset f' key = Except.ok l ∧ l.getLast? = some v) ∧
    (∀ l, lookupEntry f key = some (H5Entry.dset l) →
      log_value f key v = Except.ok (updateEntry f key (H5Entry.dset (l ++ [v]))) ∧
      lookupEntry (updateEntry f key (H5Entry.dset (l ++ [v]))) key =
        some (H5Entry.dset (l ++ [v]))) ∧
    (vs ≠ [] → h5_member f key = false →
      ∃ f' l, logValueN f key vs = Except.ok f' ∧ get_dataset f' key = Except.ok l ∧
        l.length = vs.length) := by
  refine ⟨?_, ?_, ?_⟩
  · intro f' h
    by_cases hm : h5_member f key = false
    · have hf' : f' = f ++ [(key, H5Entry.dset [v])] := by
        simp only [log_value, hm, if_true] at h
        exact (Except.ok.injEq _ _).mp h.symm |>.symm ▸ by
          cases h; rfl
      subst hf'
      refine ⟨[v], ?_, rfl⟩
      simp [get_dataset, lookupEntry_append_self _ hm]
    · rw [Bool.not_eq_false] at hm
      simp only [log_value, hm, Bool.true_eq_false, if_false] at h
      match hl : lookupEntry f key with
      | some (H5Entry.dset rs) =>
        rw [hl] at h
        cases h
        refine ⟨rs ++ [v], ?_, by simp⟩
        simp [get_dataset, lookupEntry_update _ hl]
      | some (H5Entry.scalar w) => rw [hl] at h; cases h
      | none => rw [hl] at h; cases h
  · intro l hl
    exact ⟨log_value_dset v hl, lookupEntry_update _ hl⟩
  · intro hne hm
    match vs, hne with
    | v0 :: rest, _ =>
      have hstep : log_value f key v0 = Except.ok (f ++ [(key, H5Entry.dset [v0])]) := by
        simp [log_value, hm]
      have hlook := lookupEntry_append_self (H5Entry.dset [v0]) hm
      obtain ⟨f', hrun, hlast⟩ := logValueN_dset rest (f ++ [(key, H5Entry.dset [v0])]) [v0] hlook
      refine ⟨f', [v0] ++ rest, ?_, ?_, by simp⟩
      · simp [logValueN, hstep, hrun]
      · simp [get_dataset, hlast]

/-- Witness for C8 at a concrete log: two appends to a fresh key yield a
dataset of length two. -/
theorem log_value_roundtrip_witness :
    ∃ f' l, logValueN [] "k" [3, 4] = Except.ok f' ∧ get_dataset f' "k" = Except.ok l ∧
      l.length = ([3, 4] : List Int).length :=
  (log_value_roundtrip [] "k" 0 [3, 4]).2.2 (by decide) (by rfl)

/-! ### `get_keys` -/

/-- The leading path component of a key. -/
def firstComponent (s : String) : String := ⟨s.data.takeWhile fun c => c != '/'⟩

/-- `list(file.keys())`: the direct children of the root group, each once. -/
def rootKeys (f : H5) : List String := (f.map fun e => firstComponent e.1).dedup

/-- `list(file[g].keys())` for a group `g`: the next path component of every
stored key lying strictly below `g`, each once. -/
def groupKeys (f : H5) (g : String) : List String :=
  (f.filterMap fun e =>
    if strStartsWith e.1 (g ++ "/") then
      some (firstComponent ⟨e.1.data.drop (g.length + 1)⟩)
    else none).dedup

/-- Source of `get_keys`:

    largs = len(args)
    assert largs <= 1, f"Expected 0 or 1 arguments, received ..."
    if len(args) == 0:
        with h5py.File(self.filename, "r") as file:
            return list(file.keys())
    else:
        with h5py.File(self.filename, "r") as file:
            return list(file[args[0]].keys())

The variadic argument tuple is modelled by a list.  The assertion is checked
before the file is opened; with one argument, `file[args[0]]` raises
`KeyError` when the key resolves to nothing, and `.keys()` raises on a
dataset, which has none. -/
def get_keys (f : H5) (args : List String) : Except String (List String) :=
  if args.length ≤ 1 then
    match args with
    | [] => Except.ok (rootKeys f)
    | a :: _ =>
      match lookupEntry f a with
      | some _ => Except.error "AttributeError"
      | none =>
        if h5_member f a then Except.ok (groupKeys f a) else Except.error "KeyError"
  else
    Except.error "AssertionError"

/-- Claim C9: with two or more positional arguments `get_keys` fails with the
assertion error, and the outcome does not depend on the log file, which is
never opened; with zero arguments it returns the children of the root and
with one argument naming a group it returns that group's children. -/
theorem get_keys_arity (f g : H5) (args : List String) (a : String) :
    (2 ≤ args.length →
      get_keys f args = Except.error "AssertionError" ∧ get_keys f args = get_keys g args) ∧
    get_keys f [] = Except.ok (rootKeys f) ∧
    (lookupEntry f a = none → h5_member f a = true →
      get_keys f [a] = Except.ok (groupKeys f a)) := by
  refine ⟨?_, rfl, ?_⟩
  · intro h
    have hlen : ¬ args.length ≤ 1 := by omega
    constructor <;> simp [get_keys, hlen]
  · intro hl hm
    simp [get_keys, hl, hm]

/-- Witness for C9: a two-argument call fails by assertion on a non-empty
log, and a one-argument call returns the children of the group `g`. -/
theorem get_keys_arity_witness :
    get_keys [("g/x", H5Entry.dset [1])] ["a", "b"] = Except.error "AssertionError" ∧
    get_keys [("g/x", H5Entry.dset [1])] ["g"] =
      Except.ok (groupKeys [("g/x", H5Entry.dset [1])] "g") :=
  ⟨((get_keys_arity [("g/x", H5Entry.dset [1])] [] ["a", "b"] "g").1 (by decide)).1,
    (get_keys_arity [("g/x", H5Entry.dset [1])] [] ["a", "b"] "g").2.2 (by rfl) (by rfl)⟩

/-! ### `get_unique_key` -/

/-- One loop candidate of `get_unique_key`:
`f"\x7bbase_key\x7d_\x7bcounter\x7d\x7bsuffix\x7d"`. -/
def keyCandidate (base suffix : String) (counter : Nat) : String :=
  base ++ "_" ++ natStr counter ++ suffix

/-- The `while self.check_key(key)` loop.  Each iteration evaluates the
check first; its `NameError` propagates out of the loop, so with the actual
`check_key` the recursion never advances.  The fuel bounds iterations were
the check ever to return a value. -/
def findUniqueKey (f : H5) (base suffix : String) : Nat → Nat → Except String String
  | _, 0 => Except.error "fuel exhausted"
  | counter, fuel + 1 =>
    let c := counter + 1
    let key := keyCandidate base suffix c
    match check_key f key with
    | Except.error e => Except.error e
    | Except.ok true => findUniqueKey f base suffix c fuel
    | Except.ok false => Except.ok key

/-- `base_key.endswith("/")`. -/
def endsWithSlash (s : String) : Bool := s.data.getLast? == some '/'

/-- Source of `get_unique_key`:

    counter = 0
    key = base_key
    if base_key.endswith("/"):
        base_key = base_key[:-1]
        suffix = "/"
    else:
        suffix = ""
    while self.check_key(key):
        counter += 1
        key = f"..."
    return key

The first `while` condition evaluates `check_key(base_key)`, which raises
`NameError` (through `check_if_in_h5`, see above) on every call, so the
function never reaches a `return`. -/
def get_unique_key (f : H5) (base_key : String) : Except String String :=
  let hasSlash := endsWithSlash base_key
  let base := if hasSlash then ⟨base_key.data.dropLast⟩ else base_key
  let suffix := if hasSlash then "/" else ""
  match check_key f base_key with
  | Except.error e => Except.error e
  | Except.ok true => findUniqueKey f base suffix 0 (10 ^ (maxLen (f.map Prod.fst) + 1))
  | Except.ok false => Except.ok base_key

/-- Claim C6, counterexample: at a concrete store whose only occupied name
is `a`, `get_unique_key "a"` does not return the result of the UniqueNamer
suffixing strategy on that name — it returns no key at all, failing with
`NameError` on its first loop-condition check. -/
theorem get_unique_key_counterexample :
    get_unique_key [("a", H5Entry.scalar 0)] "a" =
      Except.error "NameError: name 'os' is not defined" ∧
    get_unique_key [("a", H5Entry.scalar 0)] "a" ≠
      Except.ok (get_unique_filename ["a"] "a") := by
  constructor
  · rfl
  · intro h
    exact Except.noConfusion h

/-- Claim C6, amended: `get_unique_key` never returns a key: for every store
and base key the call fails with `NameError`, because the loop condition
calls `check_key`, whose `check_if_in_h5` references the `os` module that
`utils.py` never imports.  The suffix search below the check — which would
append `_n` at the end of the key rather than insert `(n)` before the
extension — is unreachable. -/
theorem get_unique_key_never_returns (f : H5) (b : String) :
    get_unique_key f b = Except.error "NameError: name 'os' is not defined" := rfl

/-! ### `tqdm_joblib` (`src/jtoolbox/utils.py`)

Source:

    old_batch_callback = joblib.parallel.BatchCompletionCallBack
    joblib.parallel.BatchCompletionCallBack = TqdmBatchCompletionCallback
    try:
        yield tqdm_object
    finally:
        joblib.parallel.BatchCompletionCallBack = old_batch_callback
        tqdm_object.close()

The observable state is the module-global callback slot (callback values are
tagged by naturals; `newCallback` tags the locally defined subclass) and the
tqdm object's closed flag.  The `with`-body is an arbitrary state transformer
that finishes either normally or by raising; in the latter case the
exception is thrown into the generator at the `yield`, the `finally` block
runs, and the exception propagates — in both cases the two `finally`
statements execute last. -/

structure PatchState where
  batchCompletionCallBack : Nat
  tqdmClosed : Bool
deriving DecidableEq

inductive BodyOutcome
  | normal
  | raised
deriving DecidableEq

def tqdm_joblib (newCallback : Nat) (body : PatchState → BodyOutcome × PatchState)
    (st : PatchState) : BodyOutcome × PatchState :=
  let old := st.batchCompletionCallBack
  let r := body { st with batchCompletionCallBack := newCallback }
  (r.1, { r.2 with batchCompletionCallBack := old, tqdmClosed := true })

/-- Claim C10: whatever the body does to the callback slot and whether it
finishes normally or raises, on exit the global callback equals its entry
value and the tqdm object is closed. -/
theorem tqdm_joblib_restores_callback (newCallback : Nat)
    (body : PatchState → BodyOutcome × PatchState) (st : PatchState) :
    (tqdm_joblib newCallback body st).2.batchCompletionCallBack =
      st.batchCompletionCallBack ∧
    (tqdm_joblib newCallback body st).2.tqdmClosed = true := by
  constructor <;> rfl

end Jtoolbox
